import Mathlib

/-!
Shallow embedding of `src/worker.js` (whisper-web background worker).

The worker is a single-threaded event loop.  Its observable behaviour is the
sequence of `postMessage` calls plus the calls it makes into external
facilities (the transformers.js pipeline, `decodeAudioData`, `fetch`).  We
model a run as a pure function from
  * the worker's mutable globals (`transcriber`, `audioContext`, `cancelled`),
  * an environment describing the outcome of every external awaited call, and
  * for every `await`, whether a `cancel` message is delivered while the
    worker is suspended there (the only points where the shared flag can
    change under JS run-to-completion semantics),
to the list of emitted events and the final state.

External objects are carried opaquely: the pipeline object and the audio
context are represented by the Booleans "has been assigned"; sample data is an
uninterpreted `List Int`; the floating-point `duration` is carried as the
string it is rendered to (the worker never computes with it).  Every read of
the shared `cancelled` flag in the source is mirrored by an explicit
`checkCancelled` event naming the source location of the read.
-/

namespace WhisperWeb

/-- Outgoing messages (`postMessage` payloads) of the worker. -/
inductive Msg where
  | progress (step status message : String)
  | result (text : String) (durationStr : String) (sampleRate numberOfChannels : Nat)
      (name : String) (size : Nat)
  | error (data : String)
  | log (data : String)
  | pong
deriving DecidableEq, Repr

/-- Observable events of a run: posted messages, calls into the external
pipeline / decoder, and reads of the shared `cancelled` flag. -/
inductive Event where
  | post (m : Msg)
  | callPipeline
  | callDecodeData
  | callTranscriber (audioData : List Int) (chunkLen strideLen : Nat)
      (language task : String) (samplingRate : Nat)
  | checkCancelled (site : String)
deriving DecidableEq, Repr

/-- The worker's module-level mutable state (`transcriber`, `audioContext`,
`cancelled`).  The two object references are carried as "is non-null". -/
structure WorkerState where
  transcriber : Bool
  audioContext : Bool
  cancelled : Bool
deriving DecidableEq, Repr

/-- State of the globals when the worker script starts. -/
def initialState : WorkerState := ⟨false, false, false⟩

/-- The `case 'cancel'` branch of `self.onmessage`: set the flag, post a log. -/
def cancelHandler (s : WorkerState) : List Event × WorkerState :=
  ([Event.post (Msg.log "Обработка отменена")], { s with cancelled := true })

/-- One `await` suspension point: if a `cancel` message is delivered while the
worker is suspended here, the cancel handler runs before the awaited value is
consumed. -/
def awaitYield (cancelArrives : Bool) (s : WorkerState) : List Event × WorkerState :=
  if cancelArrives then cancelHandler s else ([], s)

/-- Source location of the `cancelled` read at worker.js:32 (inside the
model-download `progress_callback`). -/
def progressCbSite : String := "initModel.progress_callback"

/-- One invocation of the model-download `progress_callback` as observed
during the `await pipeline(...)`: whether a `cancel` message was delivered
(at the library's own await boundary) before this invocation, plus the
callback's `data` fields.  The percentage and size strings stand for the
rendered `((loaded/total)*100).toFixed(1)` and `(total/1024/1024).toFixed(1)`. -/
structure CbInput where
  cancelBefore : Bool
  status : String
  pctStr : String
  sizeStr : String
deriving DecidableEq, Repr

/-- The sequence of `progress_callback` invocations during
`await pipeline(...)` (worker.js:31-46).  Returns the events, the state, and
`some m` when a callback threw `Error(m)` (which makes the pipeline await
reject with that error). -/
def runCallbacks : List CbInput → WorkerState → List Event × WorkerState × Option String
  | [], s => ([], s, none)
  | cb :: rest, s =>
    let (ev1, s1) := awaitYield cb.cancelBefore s
    if s1.cancelled then
      (ev1 ++ [Event.checkCancelled progressCbSite], s1, some "Cancelled")
    else
      let ev2 :=
        if cb.status == "downloading" then
          [Event.post (Msg.progress "model" "active"
            ("Загружено: " ++ cb.pctStr ++ "% из " ++ cb.sizeStr ++ " МБ"))]
        else []
      let (ev3, s3, r) := runCallbacks rest s1
      (ev1 ++ [Event.checkCancelled progressCbSite] ++ ev2 ++ ev3, s3, r)

/-- Environment of `initModel` (worker.js:20-60): outcome of the dynamic
`import` in `loadTransformers`, the observed `progress_callback` invocations,
whether a `cancel` arrives during the tail of the pipeline await, and the
pipeline construction outcome when no callback threw. -/
structure ModelEnv where
  cancelDuringImport : Bool
  importResult : Except String Unit
  cbs : List CbInput
  cancelAfterCbs : Bool
  pipelineResult : Except String Unit
deriving Repr

/-- `initModel` (worker.js:20-60).  Result: `Except.ok (some ())` is the
returned pipeline object, `Except.ok none` the `return null` taken when a
caught error has message `'Cancelled'`, `Except.error m` a rethrown error. -/
def initModel (env : ModelEnv) (s : WorkerState) :
    List Event × WorkerState × Except String (Option Unit) :=
  let ev0 := [Event.post (Msg.progress "model" "active" "Загрузка из CDN...")]
  let (evI, s1) := awaitYield env.cancelDuringImport s
  match env.importResult with
  | .error m =>
    let msg := "Не удалось загрузить transformers.js: " ++ m
    if msg == "Cancelled" then (ev0 ++ evI, s1, .ok none)
    else (ev0 ++ evI, s1, .error msg)
  | .ok _ =>
    let (evCb, s2, cbErr) := runCallbacks env.cbs s1
    match cbErr with
    | some m =>
      if m == "Cancelled" then (ev0 ++ evI ++ [Event.callPipeline] ++ evCb, s2, .ok none)
      else (ev0 ++ evI ++ [Event.callPipeline] ++ evCb, s2, .error m)
    | none =>
      let (evA, s3) := awaitYield env.cancelAfterCbs s2
      match env.pipelineResult with
      | .error m =>
        if m == "Cancelled" then
          (ev0 ++ evI ++ [Event.callPipeline] ++ evCb ++ evA, s3, .ok none)
        else
          (ev0 ++ evI ++ [Event.callPipeline] ++ evCb ++ evA, s3, .error m)
      | .ok _ =>
        (ev0 ++ evI ++ [Event.callPipeline] ++ evCb ++ evA ++
            [Event.post (Msg.progress "model" "completed" "Модель загружена и закэширована")],
          { s3 with transcriber := true }, .ok (some ()))

/-- A decoded `AudioBuffer`: channel count, sample rate, the rendered
`duration.toFixed(1)` string, and the per-channel sample data (uninterpreted). -/
structure AudioBuffer where
  numberOfChannels : Nat
  sampleRate : Nat
  durationStr : String
  channels : List (List Int)
deriving DecidableEq, Repr

/-- `audioBuffer.getChannelData(i)`. -/
def getChannelData (b : AudioBuffer) (i : Nat) : List Int := b.channels.getD i []

/-- Environment of `decodeAudio` (worker.js:63-86): whether a `cancel`
arrives during the `decodeAudioData` await, and its outcome. -/
structure DecodeEnv where
  cancelDuringDecode : Bool
  decodeResult : Except String AudioBuffer
deriving Repr

/-- `decodeAudio` (worker.js:63-86). -/
def decodeAudio (env : DecodeEnv) (s : WorkerState) :
    List Event × WorkerState × Except String AudioBuffer :=
  let ev0 := [Event.post (Msg.progress "decode" "active" "Декодирование...")]
  let s1 := { s with audioContext := true }
  let (evY, s2) := awaitYield env.cancelDuringDecode s1
  match env.decodeResult with
  | .error m =>
    (ev0 ++ [Event.callDecodeData] ++ evY, s2, .error ("Ошибка декодирования аудио: " ++ m))
  | .ok buf =>
    (ev0 ++ [Event.callDecodeData] ++ evY ++
        [Event.post (Msg.progress "decode" "completed"
          (toString buf.numberOfChannels ++ " канал(а), " ++ toString buf.sampleRate ++
            " Гц, " ++ buf.durationStr ++ " сек"))],
      s2, .ok buf)

/-- Environment of `transcribeAudio` (worker.js:89-115): whether a `cancel`
arrives during the `transcriber(...)` await, and the call's outcome
(`Except.ok text` is a result object with that `.text`). -/
structure TranscribeEnv where
  cancelDuringTranscribe : Bool
  transcribeResult : Except String String
deriving Repr

/-- `transcribeAudio` (worker.js:89-115).  Result: `Except.ok (some t)` is a
returned `result.text`, `Except.ok none` the `return null` on a `'Cancelled'`
error, `Except.error m` a rethrown wrapped error. -/
def transcribeAudio (env : TranscribeEnv) (buf : AudioBuffer) (s : WorkerState) :
    List Event × WorkerState × Except String (Option String) :=
  let ev0 := [Event.post (Msg.progress "transcribe" "active" "Распознавание...")]
  let audioData := getChannelData buf 0
  let evCall := [Event.callTranscriber audioData 30 5 "ru" "transcribe" buf.sampleRate]
  let (evY, s1) := awaitYield env.cancelDuringTranscribe s
  match env.transcribeResult with
  | .error m =>
    if m == "Cancelled" then (ev0 ++ evCall ++ evY, s1, .ok none)
    else (ev0 ++ evCall ++ evY, s1, .error ("Ошибка распознавания: " ++ m))
  | .ok text =>
    (ev0 ++ evCall ++ evY ++ [Event.post (Msg.progress "transcribe" "completed" "Текст распознан")],
      s1, .ok (some text))

/-- The `fileData` argument of `processFile`; the raw `arrayBuffer` contents
are opaque (the decode outcome lives in the environment). -/
structure FileData where
  name : String
  size : Nat
deriving DecidableEq, Repr

/-- Environment of one `processFile` run. -/
structure FileEnv where
  model : ModelEnv
  decode : DecodeEnv
  transcribe : TranscribeEnv
deriving Repr

/-- JS truthiness of the value `transcribeAudio` returned: `!text` is true
for `null` and for the empty string. -/
def jsFalsyText : Option String → Bool
  | none => true
  | some s => s == ""

/-- Source location of the `cancelled` read at worker.js:124. -/
def afterInitModelSite : String := "processFile.afterInitModel"
/-- Source location of the `cancelled` read at worker.js:128. -/
def afterDecodeSite : String := "processFile.afterDecode"
/-- Source location of the `cancelled` read at worker.js:132. -/
def afterTranscribeSite : String := "processFile.afterTranscribe"
/-- Source location of the `cancelled` read at worker.js:169. -/
def afterArrayBufferSite : String := "processUrl.afterArrayBuffer"

/-- `processFile` (worker.js:118-154). -/
def processFile (env : FileEnv) (fd : FileData) (s : WorkerState) :
    List Event × WorkerState :=
  let s0 := { s with cancelled := false }
  match initModel env.model s0 with
  | (ev1, s1, .error m) => (ev1 ++ [Event.post (Msg.error m)], s1)
  | (ev1, s1, .ok model) =>
    let ev1c := ev1 ++ [Event.checkCancelled afterInitModelSite]
    if s1.cancelled || model.isNone then (ev1c, s1)
    else
      match decodeAudio env.decode s1 with
      | (ev2, s2, .error m) => (ev1c ++ ev2 ++ [Event.post (Msg.error m)], s2)
      | (ev2, s2, .ok buf) =>
        let ev2c := ev2 ++ [Event.checkCancelled afterDecodeSite]
        if s2.cancelled then (ev1c ++ ev2c, s2)
        else
          match transcribeAudio env.transcribe buf s2 with
          | (ev3, s3, .error m) => (ev1c ++ ev2c ++ ev3 ++ [Event.post (Msg.error m)], s3)
          | (ev3, s3, .ok text) =>
            let ev3c := ev3 ++ [Event.checkCancelled afterTranscribeSite]
            if s3.cancelled || jsFalsyText text then (ev1c ++ ev2c ++ ev3c, s3)
            else
              match text with
              | some t =>
                (ev1c ++ ev2c ++ ev3c ++
                    [Event.post (Msg.result t buf.durationStr buf.sampleRate
                      buf.numberOfChannels fd.name fd.size)],
                  s3)
              | none => (ev1c ++ ev2c ++ ev3c, s3)

/-- The `fetch` response as far as the worker inspects it. -/
structure FetchResponse where
  ok : Bool
  status : Nat
deriving DecidableEq, Repr

/-- Environment of one `processUrl` run: the two fetch-related awaits plus the
environment of the nested `processFile` call. -/
structure UrlEnv where
  cancelDuringFetch : Bool
  fetchResult : Except String FetchResponse
  cancelDuringBuffer : Bool
  bufferResult : Except String Nat
  file : FileEnv
deriving Repr

/-- `url.split('/').pop() || 'audio'`. -/
def urlBaseName (url : String) : String :=
  let last := (url.splitOn "/").getLastD ""
  if last == "" then "audio" else last

/-- `processUrl` (worker.js:157-180). -/
def processUrl (env : UrlEnv) (url : String) (s : WorkerState) :
    List Event × WorkerState :=
  let s0 := { s with cancelled := false }
  let ev0 := [Event.post (Msg.progress "decode" "active" "Загрузка аудио...")]
  let (evF, s1) := awaitYield env.cancelDuringFetch s0
  match env.fetchResult with
  | .error m => (ev0 ++ evF ++ [Event.post (Msg.error m)], s1)
  | .ok resp =>
    if !resp.ok then
      (ev0 ++ evF ++
          [Event.post (Msg.error ("Не удалось загрузить файл: " ++ toString resp.status))],
        s1)
    else
      let (evB, s2) := awaitYield env.cancelDuringBuffer s1
      match env.bufferResult with
      | .error m => (ev0 ++ evF ++ evB ++ [Event.post (Msg.error m)], s2)
      | .ok len =>
        let evChk := [Event.checkCancelled afterArrayBufferSite]
        if s2.cancelled then (ev0 ++ evF ++ evB ++ evChk, s2)
        else
          let (evP, s3) := processFile env.file { name := urlBaseName url, size := len } s2
          (ev0 ++ evF ++ evB ++ evChk ++ evP, s3)

/-- An incoming `event.data`, destructured as `{ type, file, url }`. -/
structure InMsg where
  type : String
  file : FileData
  url : String
deriving DecidableEq, Repr

/-- Environments consumed by the two processing branches of `onmessage`. -/
structure WorkerEnv where
  file : FileEnv
  url : UrlEnv
deriving Repr

/-- `self.onmessage` (worker.js:183-201). -/
def onmessage (wenv : WorkerEnv) (m : InMsg) (s : WorkerState) :
    List Event × WorkerState :=
  if m.type == "transcribe" then processFile wenv.file m.file s
  else if m.type == "transcribeUrl" then processUrl wenv.url m.url s
  else if m.type == "cancel" then cancelHandler s
  else if m.type == "ping" then ([Event.post Msg.pong], s)
  else ([], s)

/-- `self.onerror` (worker.js:204-207): forwards the error's message. -/
def onerrorHandler (message : String) : List Msg := [Msg.error message]

/-! ## Event classifiers -/

/-- Is this event a posted `result` message? -/
def Event.isResultPost : Event → Bool
  | .post (.result _ _ _ _ _ _) => true
  | _ => false

/-- Is this event a posted `error` message? -/
def Event.isErrorPost : Event → Bool
  | .post (.error _) => true
  | _ => false

/-- Is this event an invocation of the external `transcriber` pipeline? -/
def Event.isTranscriberCall : Event → Bool
  | .callTranscriber _ _ _ _ _ _ => true
  | _ => false

/-- Is this event an invocation of `decodeAudioData`? -/
def Event.isDecodeCall : Event → Bool
  | .callDecodeData => true
  | _ => false

/-- Is this event the `pipeline(...)` construction call? -/
def Event.isPipelineCall : Event → Bool
  | .callPipeline => true
  | _ => false

/-- The pipeline stage an event belongs to: `0` model load, `1` decode,
`2` transcribe; `none` for stage-neutral events (logs, errors, results,
flag reads). -/
def Event.phase : Event → Option Nat
  | .callPipeline => some 0
  | .post (.progress "model" _ _) => some 0
  | .callDecodeData => some 1
  | .post (.progress "decode" _ _) => some 1
  | .callTranscriber _ _ _ _ _ _ => some 2
  | .post (.progress "transcribe" _ _) => some 2
  | _ => none

/-- Well-formedness of a posted progress message, as the spec describes it:
the step identifies one of the three stages (`"model"` is the model-load
stage), the status is `active` or `completed`, and the note is non-empty. -/
def progressOk : Event → Bool
  | .post (.progress step status message) =>
    (step == "model" || step == "decode" || step == "transcribe") &&
      (status == "active" || status == "completed") && !(message == "")
  | _ => true

/-- The five source locations at which the shared `cancelled` flag is read.
Each lies at an `await` boundary: the three `processFile` checks and the
`processUrl` check run right after an awaited call resolves, and the
model-download `progress_callback` is invoked by the library between its own
awaited download steps inside `await pipeline(...)`. -/
def awaitBoundaryConsultSites : List String :=
  [progressCbSite, afterInitModelSite, afterDecodeSite, afterTranscribeSite,
    afterArrayBufferSite]

/-- Every read of the `cancelled` flag happens at a known await-boundary
site. -/
def consultOk : Event → Bool
  | .checkCancelled site => awaitBoundaryConsultSites.contains site
  | _ => true

/-- Is this event a posted progress message with this step and status? -/
def progressIs (step status : String) : Event → Bool
  | .post (.progress st sta _) => st == step && sta == status
  | _ => false

/-- Does the trace contain a posted progress message with this step and
status? -/
def hasProgress (step status : String) (evs : List Event) : Bool :=
  evs.any (progressIs step status)

/-- Is a list of stage numbers non-decreasing? -/
def stagesOrdered : List Nat → Bool
  | a :: b :: rest => decide (a ≤ b) && stagesOrdered (b :: rest)
  | _ => true

/-! ## Shapes of the events each step function can emit -/

/-- Events producible inside `initModel` (and its `progress_callback`). -/
def modelShape : Event → Bool
  | .post (.progress st sta m) =>
    st == "model" && (sta == "active" || sta == "completed") && !(m == "")
  | .post (.log l) => l == "Обработка отменена"
  | .checkCancelled site => site == progressCbSite
  | .callPipeline => true
  | _ => false

/-- Events producible inside `decodeAudio`. -/
def decodeShape : Event → Bool
  | .post (.progress st sta m) =>
    st == "decode" && (sta == "active" || sta == "completed") && !(m == "")
  | .post (.log l) => l == "Обработка отменена"
  | .callDecodeData => true
  | _ => false

/-- Events producible inside `transcribeAudio`. -/
def transShape : Event → Bool
  | .post (.progress st sta m) =>
    st == "transcribe" && (sta == "active" || sta == "completed") && !(m == "")
  | .post (.log l) => l == "Обработка отменена"
  | .callTranscriber _ _ _ _ _ _ => true
  | _ => false

/-- Events producible anywhere during a `processFile` run. -/
def fileRunShape (e : Event) : Bool :=
  modelShape e || decodeShape e || transShape e ||
    Event.isErrorPost e || Event.isResultPost e ||
    e == Event.checkCancelled afterInitModelSite ||
    e == Event.checkCancelled afterDecodeSite ||
    e == Event.checkCancelled afterTranscribeSite

/-- Events producible anywhere during a `processUrl` run. -/
def urlRunShape (e : Event) : Bool :=
  fileRunShape e || e == Event.checkCancelled afterArrayBufferSite

/-- Was a cancellation delivered at any point of the model-load step? -/
def modelCancelRequested (env : ModelEnv) : Bool :=
  env.cancelDuringImport || env.cbs.any (·.cancelBefore) || env.cancelAfterCbs

/-- The message of the error a `processFile` run lets reach its `catch`
clause, if any.  Mirrors the control flow of `processFile` branch by
branch. -/
def processFileThrown (env : FileEnv) (s : WorkerState) : Option String :=
  match initModel env.model { s with cancelled := false } with
  | (_, _, .error m) => some m
  | (_, s1, .ok model) =>
    if s1.cancelled || model.isNone then none
    else
      match decodeAudio env.decode s1 with
      | (_, _, .error m) => some m
      | (_, s2, .ok buf) =>
        if s2.cancelled then none
        else
          match transcribeAudio env.transcribe buf s2 with
          | (_, _, .error m) => some m
          | (_, _, .ok _) => none

/-- The message of the error a `processUrl` run posts from a `catch`
clause (its own, or the nested `processFile`'s), if any. -/
def processUrlThrown (env : UrlEnv) (s : WorkerState) : Option String :=
  let s1 := (awaitYield env.cancelDuringFetch { s with cancelled := false }).2
  match env.fetchResult with
  | .error m => some m
  | .ok resp =>
    if !resp.ok then some ("Не удалось загрузить файл: " ++ toString resp.status)
    else
      let s2 := (awaitYield env.cancelDuringBuffer s1).2
      match env.bufferResult with
      | .error m => some m
      | .ok _ => if s2.cancelled then none else processFileThrown env.file s2

/-- Did the `processFile` run end through one of its cancellation-driven
early returns (flag observed true at a check, a `null` model from a
`'Cancelled'` error in the model-load step, or a `null` text from a
`'Cancelled'` error during transcription)?  Mirrors the control flow of
`processFile` branch by branch. -/
def processFileCancelledEnd (env : FileEnv) (s : WorkerState) : Bool :=
  match initModel env.model { s with cancelled := false } with
  | (_, _, .error _) => false
  | (_, s1, .ok model) =>
    if s1.cancelled || model.isNone then true
    else
      match decodeAudio env.decode s1 with
      | (_, _, .error _) => false
      | (_, s2, .ok buf) =>
        if s2.cancelled then true
        else
          match transcribeAudio env.transcribe buf s2 with
          | (_, _, .error _) => false
          | (_, s3, .ok text) => s3.cancelled || text.isNone

/-- Any posted `log` message is the cancel handler's note. -/
def logOk : Event → Bool
  | .post (.log l) => l == "Обработка отменена"
  | _ => true

/-! ## Sample inputs (used to witness theorems with hypotheses) -/

/-- A concrete decoded buffer: mono, 16 kHz, two samples. -/
def sampleBuf : AudioBuffer := ⟨1, 16000, "2.0", [[1, 2]]⟩

/-- A model-load environment in which every external call succeeds. -/
def okModelEnv : ModelEnv := ⟨false, .ok (), [], false, .ok ()⟩

/-- A `processFile` environment in which every step succeeds. -/
def okFileEnv : FileEnv := ⟨okModelEnv, ⟨false, .ok sampleBuf⟩, ⟨false, .ok "привет"⟩⟩

/-- A `processFile` environment with a `cancel` delivered during every await. -/
def cancelFileEnv : FileEnv :=
  ⟨⟨true, .ok (), [], true, .ok ()⟩, ⟨true, .ok sampleBuf⟩, ⟨true, .ok "привет"⟩⟩

/-- A `processFile` environment cancelled during the decode await only. -/
def cancelDecodeFileEnv : FileEnv :=
  ⟨okModelEnv, ⟨true, .ok sampleBuf⟩, ⟨false, .ok "привет"⟩⟩

/-- A `processUrl` environment in which every step succeeds. -/
def okUrlEnv : UrlEnv := ⟨false, .ok ⟨true, 200⟩, false, .ok 4, okFileEnv⟩

/-- A `processUrl` environment with a `cancel` delivered during both fetch awaits. -/
def cancelUrlEnv : UrlEnv := ⟨true, .ok ⟨true, 200⟩, true, .ok 4, okFileEnv⟩

/-- A concrete incoming file. -/
def sampleFile : FileData := ⟨"a.mp3", 100⟩

/-- A concrete worker environment. -/
def sampleWorkerEnv : WorkerEnv := ⟨okFileEnv, okUrlEnv⟩

/-! ## Generic helper lemmas -/

theorem all_trans {α : Type} {l : List α} {p q : α → Bool}
    (hpq : ∀ e, p e = true → q e = true) (h : l.all p = true) : l.all q = true := by
  rw [List.all_eq_true] at h ⊢
  exact fun x hx => hpq x (h x hx)

theorem filter_nil_of_all {α : Type} {l : List α} {p q : α → Bool}
    (hpq : ∀ e, p e = true → q e = false) (h : l.all p = true) : l.filter q = [] := by
  rw [List.filter_eq_nil_iff]
  rw [List.all_eq_true] at h
  intro a ha
  have hq := hpq a (h a ha)
  simp [hq]

theorem any_false_of_all {α : Type} {l : List α} {p q : α → Bool}
    (hpq : ∀ e, p e = true → q e = false) (h : l.all p = true) : l.any q = false := by
  cases hq : l.any q with
  | false => rfl
  | true =>
    rw [List.any_eq_true] at hq
    obtain ⟨x, hx, hqx⟩ := hq
    rw [List.all_eq_true] at h
    rw [hpq x (h x hx)] at hqx
    cases hqx

theorem str_ne_empty_left (a b : String) (h : a ≠ "") : a ++ b ≠ "" := by
  intro hc
  apply h
  have hl := congrArg String.length hc
  rw [String.length_append] at hl
  have h0 : ("" : String).length = 0 := rfl
  rw [h0] at hl
  have ha : a.length = 0 := by omega
  cases a with
  | mk data =>
    apply String.ext
    simpa [String.length] using ha

theorem str_ne_empty_right (a b : String) (h : b ≠ "") : a ++ b ≠ "" := by
  intro hc
  apply h
  have hl := congrArg String.length hc
  rw [String.length_append] at hl
  have h0 : ("" : String).length = 0 := rfl
  rw [h0] at hl
  have hb : b.length = 0 := by omega
  cases b with
  | mk data =>
    apply String.ext
    simpa [String.length] using hb

/-! ## Pointwise consequences of the shape predicates -/

theorem modelShape_spec (e : Event) (h : modelShape e = true) :
    Event.isErrorPost e = false ∧ Event.isResultPost e = false ∧
      Event.isDecodeCall e = false ∧ Event.isTranscriberCall e = false ∧
      progressOk e = true ∧ consultOk e = true ∧
      (Event.phase e = some 0 ∨ Event.phase e = none) := by
  cases e with
  | post m =>
    cases m with
    | progress st sta msg =>
      simp only [modelShape, Bool.and_eq_true, Bool.or_eq_true, beq_iff_eq,
        Bool.not_eq_true', beq_eq_false_iff_ne] at h
      obtain ⟨⟨hst, hsta⟩, hmsg⟩ := h
      subst hst
      refine ⟨rfl, rfl, rfl, rfl, ?_, rfl, Or.inl rfl⟩
      rcases hsta with h1 | h1 <;> subst h1 <;>
        simp [progressOk, hmsg]
    | result t d sr nc n sz => simp [modelShape] at h
    | error d => simp [modelShape] at h
    | log l =>
      exact ⟨rfl, rfl, rfl, rfl, rfl, rfl, Or.inr rfl⟩
    | pong => simp [modelShape] at h
  | callPipeline =>
    exact ⟨rfl, rfl, rfl, rfl, rfl, rfl, Or.inl rfl⟩
  | callDecodeData => simp [modelShape] at h
  | callTranscriber a c st l t r => simp [modelShape] at h
  | checkCancelled site =>
    simp only [modelShape, beq_iff_eq] at h
    subst h
    refine ⟨rfl, rfl, rfl, rfl, rfl, ?_, Or.inr rfl⟩
    decide

theorem decodeShape_spec (e : Event) (h : decodeShape e = true) :
    Event.isErrorPost e = false ∧ Event.isResultPost e = false ∧
      Event.isPipelineCall e = false ∧ Event.isTranscriberCall e = false ∧
      progressOk e = true ∧ consultOk e = true ∧
      (Event.phase e = some 1 ∨ Event.phase e = none) := by
  cases e with
  | post m =>
    cases m with
    | progress st sta msg =>
      simp only [decodeShape, Bool.and_eq_true, Bool.or_eq_true, beq_iff_eq,
        Bool.not_eq_true', beq_eq_false_iff_ne] at h
      obtain ⟨⟨hst, hsta⟩, hmsg⟩ := h
      subst hst
      refine ⟨rfl, rfl, rfl, rfl, ?_, rfl, Or.inl rfl⟩
      rcases hsta with h1 | h1 <;> subst h1 <;>
        simp [progressOk, hmsg]
    | result t d sr nc n sz => simp [decodeShape] at h
    | error d => simp [decodeShape] at h
    | log l =>
      exact ⟨rfl, rfl, rfl, rfl, rfl, rfl, Or.inr rfl⟩
    | pong => simp [decodeShape] at h
  | callPipeline => simp [decodeShape] at h
  | callDecodeData =>
    exact ⟨rfl, rfl, rfl, rfl, rfl, rfl, Or.inl rfl⟩
  | callTranscriber a c st l t r => simp [decodeShape] at h
  | checkCancelled site => simp [decodeShape] at h

theorem transShape_spec (e : Event) (h : transShape e = true) :
    Event.isErrorPost e = false ∧ Event.isResultPost e = false ∧
      Event.isPipelineCall e = false ∧ Event.isDecodeCall e = false ∧
      progressOk e = true ∧ consultOk e = true ∧
      (Event.phase e = some 2 ∨ Event.phase e = none) := by
  cases e with
  | post m =>
    cases m with
    | progress st sta msg =>
      simp only [transShape, Bool.and_eq_true, Bool.or_eq_true, beq_iff_eq,
        Bool.not_eq_true', beq_eq_false_iff_ne] at h
      obtain ⟨⟨hst, hsta⟩, hmsg⟩ := h
      subst hst
      refine ⟨rfl, rfl, rfl, rfl, ?_, rfl, Or.inl rfl⟩
      rcases hsta with h1 | h1 <;> subst h1 <;>
        simp [progressOk, hmsg]
    | result t d sr nc n sz => simp [transShape] at h
    | error d => simp [transShape] at h
    | log l =>
      exact ⟨rfl, rfl, rfl, rfl, rfl, rfl, Or.inr rfl⟩
    | pong => simp [transShape] at h
  | callPipeline => simp [transShape] at h
  | callDecodeData => simp [transShape] at h
  | callTranscriber a c st l t r =>
    exact ⟨rfl, rfl, rfl, rfl, rfl, rfl, Or.inl rfl⟩
  | checkCancelled site => simp [transShape] at h

/-! ## Trace shapes of the step functions -/

theorem downloadMsg_ne_empty (p q : String) :
    ("Загружено: " ++ p ++ "% из " ++ q ++ " МБ") ≠ "" :=
  str_ne_empty_right _ _ (by decide)

theorem decodeMsg_ne_empty (a b : Nat) (d : String) :
    (toString a ++ " канал(а), " ++ toString b ++ " Гц, " ++ d ++ " сек") ≠ "" :=
  str_ne_empty_right _ _ (by decide)

theorem runCallbacks_shape (cbs : List CbInput) (s : WorkerState) :
    ((runCallbacks cbs s).1).all modelShape = true := by
  induction cbs generalizing s with
  | nil => rfl
  | cons cb rest ih =>
    rcases cb with ⟨cb1, cst, cp, csz⟩
    cases cb1 with
    | true =>
      simp [runCallbacks, awaitYield, cancelHandler, modelShape]
    | false =>
      cases hs : s.cancelled with
      | true =>
        simp [runCallbacks, awaitYield, hs, modelShape]
      | false =>
        cases hst : cst == "downloading" with
        | true =>
          simp [runCallbacks, awaitYield, hs, hst, List.all_append, modelShape, ih,
            downloadMsg_ne_empty]
        | false =>
          simp [runCallbacks, awaitYield, hs, hst, List.all_append, modelShape, ih]

theorem initModel_shape (env : ModelEnv) (s : WorkerState) :
    ((initModel env s).1).all modelShape = true := by
  rcases env with ⟨ci, ir, cbs, ca, pr⟩
  cases ci <;> cases ir <;> cases ca <;> cases pr <;>
    simp [initModel, awaitYield, cancelHandler, -List.all_eq_true, List.all_append,
      List.all_cons, List.all_nil, modelShape, runCallbacks_shape] <;>
    (repeat' split) <;>
    simp [-List.all_eq_true, List.all_append, List.all_cons, List.all_nil, modelShape,
      runCallbacks_shape]

theorem decodeAudio_shape (env : DecodeEnv) (s : WorkerState) :
    ((decodeAudio env s).1).all decodeShape = true := by
  rcases env with ⟨cd, dr⟩
  cases cd <;> cases dr <;>
    simp [decodeAudio, awaitYield, cancelHandler, -List.all_eq_true, List.all_append,
      List.all_cons, List.all_nil, decodeShape, decodeMsg_ne_empty]

theorem transcribeAudio_shape (env : TranscribeEnv) (buf : AudioBuffer) (s : WorkerState) :
    ((transcribeAudio env buf s).1).all transShape = true := by
  rcases env with ⟨ct, tr⟩
  cases ct <;> cases tr <;>
    simp [transcribeAudio, awaitYield, cancelHandler, -List.all_eq_true, List.all_append,
      List.all_cons, List.all_nil, transShape] <;>
    (repeat' split) <;>
    simp [-List.all_eq_true, List.all_append, List.all_cons, List.all_nil, transShape]

/-! ## State and result lemmas for the step functions -/

theorem runCallbacks_cancelled (cbs : List CbInput) (s : WorkerState) :
    ((runCallbacks cbs s).2.1).cancelled = (s.cancelled || cbs.any (·.cancelBefore)) := by
  induction cbs generalizing s with
  | nil => simp [runCallbacks]
  | cons cb rest ih =>
    rcases cb with ⟨cb1, cst, cp, csz⟩
    cases cb1 with
    | true =>
      simp [runCallbacks, awaitYield, cancelHandler]
    | false =>
      cases hs : s.cancelled with
      | true => simp [runCallbacks, awaitYield, hs]
      | false =>
        simp [runCallbacks, awaitYield, hs, ih]

theorem runCallbacks_state_rest (cbs : List CbInput) (s : WorkerState) :
    ((runCallbacks cbs s).2.1).transcriber = s.transcriber ∧
      ((runCallbacks cbs s).2.1).audioContext = s.audioContext := by
  induction cbs generalizing s with
  | nil => exact ⟨rfl, rfl⟩
  | cons cb rest ih =>
    rcases cb with ⟨cb1, cst, cp, csz⟩
    cases cb1 with
    | true =>
      simp [runCallbacks, awaitYield, cancelHandler]
    | false =>
      cases hs : s.cancelled with
      | true => simp [runCallbacks, awaitYield, hs]
      | false =>
        simp [runCallbacks, awaitYield, hs, ih]

theorem decodeAudio_cancelled (env : DecodeEnv) (s : WorkerState) :
    ((decodeAudio env s).2.1).cancelled = (s.cancelled || env.cancelDuringDecode) := by
  rcases env with ⟨cd, dr⟩
  cases cd <;> cases dr <;>
    simp [decodeAudio, awaitYield, cancelHandler]

theorem transcribeAudio_cancelled (env : TranscribeEnv) (buf : AudioBuffer) (s : WorkerState) :
    ((transcribeAudio env buf s).2.1).cancelled = (s.cancelled || env.cancelDuringTranscribe) := by
  rcases env with ⟨ct, tr⟩
  cases ct <;> cases tr <;>
    simp [transcribeAudio, awaitYield, cancelHandler] <;>
    (repeat' split) <;> simp

theorem decodeAudio_result (env : DecodeEnv) (s : WorkerState) :
    (decodeAudio env s).2.2 =
      (match env.decodeResult with
        | .ok buf => .ok buf
        | .error m => .error ("Ошибка декодирования аудио: " ++ m)) := by
  rcases env with ⟨cd, dr⟩
  cases cd <;> cases dr <;>
    simp [decodeAudio, awaitYield, cancelHandler]

theorem transcribeAudio_result (env : TranscribeEnv) (buf : AudioBuffer) (s : WorkerState) :
    (transcribeAudio env buf s).2.2 =
      (match env.transcribeResult with
        | .ok t => .ok (some t)
        | .error m =>
          if m == "Cancelled" then .ok none
          else .error ("Ошибка распознавания: " ++ m)) := by
  rcases env with ⟨ct, tr⟩
  cases ct <;> cases tr <;>
    simp [transcribeAudio, awaitYield, cancelHandler] <;>
    (repeat' split) <;> simp_all

theorem transcribeAudio_calls (env : TranscribeEnv) (buf : AudioBuffer) (s : WorkerState) :
    ((transcribeAudio env buf s).1).filter Event.isTranscriberCall =
      [Event.callTranscriber (getChannelData buf 0) 30 5 "ru" "transcribe" buf.sampleRate] := by
  rcases env with ⟨ct, tr⟩
  cases ct <;> cases tr <;>
    simp [transcribeAudio, awaitYield, cancelHandler, List.filter_append, List.filter,
      Event.isTranscriberCall] <;>
    (repeat' split) <;>
    simp [List.filter_append, List.filter, Event.isTranscriberCall]

theorem initModel_flag_cancelled (env : ModelEnv) (s : WorkerState)
    (hf : (env.cancelDuringImport || env.cbs.any (·.cancelBefore) || env.cancelAfterCbs) = true)
    (hok : (initModel env s).2.2 = Except.ok (some ())) :
    ((initModel env s).2.1).cancelled = true := by
  rcases env with ⟨ci, ir, cbs, ca, pr⟩
  cases ci <;> cases ir <;> cases ca <;> cases pr <;>
    simp [initModel, awaitYield, cancelHandler] at hf hok ⊢ <;>
    (repeat' split at hok) <;>
    simp_all [runCallbacks_cancelled]

theorem initModel_completed (env : ModelEnv) (s : WorkerState)
    (hok : (initModel env s).2.2 = Except.ok (some ())) :
    hasProgress "model" "completed" ((initModel env s).1) = true := by
  rcases env with ⟨ci, ir, cbs, ca, pr⟩
  cases ci <;> cases ir <;> cases ca <;> cases pr <;>
    simp [initModel, awaitYield, cancelHandler] at hok ⊢ <;>
    (repeat' split at hok) <;>
    simp_all [hasProgress, progressIs, List.any_append]

theorem decodeAudio_completed (env : DecodeEnv) (s : WorkerState) (buf : AudioBuffer)
    (hok : (decodeAudio env s).2.2 = Except.ok buf) :
    hasProgress "decode" "completed" ((decodeAudio env s).1) = true := by
  rcases env with ⟨cd, dr⟩
  cases cd <;> cases dr <;>
    simp [decodeAudio, awaitYield, cancelHandler] at hok ⊢ <;>
    simp_all [hasProgress, progressIs, List.any_append]

/-! ## Branch decomposition of `processFile`

One theorem that exposes, for every run, which of the seven exit branches of
`processFile` was taken, the intermediate step results, and the exact trace. -/

theorem processFile_cases (env : FileEnv) (fd : FileData) (s : WorkerState) :
    ∃ ev1 s1 r1, initModel env.model { s with cancelled := false } = (ev1, s1, r1) ∧
      ((∃ m, r1 = Except.error m ∧
          processFile env fd s = (ev1 ++ [Event.post (Msg.error m)], s1)) ∨
       (∃ model, r1 = Except.ok model ∧ (s1.cancelled || model.isNone) = true ∧
          processFile env fd s = (ev1 ++ [Event.checkCancelled afterInitModelSite], s1)) ∨
       (r1 = Except.ok (some ()) ∧ s1.cancelled = false ∧
        ∃ ev2 s2 r2, decodeAudio env.decode s1 = (ev2, s2, r2) ∧
          ((∃ m, r2 = Except.error m ∧
              processFile env fd s =
                (ev1 ++ [Event.checkCancelled afterInitModelSite] ++ ev2 ++
                  [Event.post (Msg.error m)], s2)) ∨
           (∃ buf, r2 = Except.ok buf ∧ s2.cancelled = true ∧
              processFile env fd s =
                (ev1 ++ [Event.checkCancelled afterInitModelSite] ++
                  (ev2 ++ [Event.checkCancelled afterDecodeSite]), s2)) ∨
           (∃ buf, r2 = Except.ok buf ∧ s2.cancelled = false ∧
            ∃ ev3 s3 r3, transcribeAudio env.transcribe buf s2 = (ev3, s3, r3) ∧
              ((∃ m, r3 = Except.error m ∧
                  processFile env fd s =
                    (ev1 ++ [Event.checkCancelled afterInitModelSite] ++
                      (ev2 ++ [Event.checkCancelled afterDecodeSite]) ++ ev3 ++
                      [Event.post (Msg.error m)], s3)) ∨
               (∃ text, r3 = Except.ok text ∧
                  (s3.cancelled || jsFalsyText text) = true ∧
                  processFile env fd s =
                    (ev1 ++ [Event.checkCancelled afterInitModelSite] ++
                      (ev2 ++ [Event.checkCancelled afterDecodeSite]) ++
                      (ev3 ++ [Event.checkCancelled afterTranscribeSite]), s3)) ∨
               (∃ t, r3 = Except.ok (some t) ∧ s3.cancelled = false ∧ (t == "") = false ∧
                  processFile env fd s =
                    (ev1 ++ [Event.checkCancelled afterInitModelSite] ++
                      (ev2 ++ [Event.checkCancelled afterDecodeSite]) ++
                      (ev3 ++ [Event.checkCancelled afterTranscribeSite]) ++
                      [Event.post (Msg.result t buf.durationStr buf.sampleRate
                        buf.numberOfChannels fd.name fd.size)], s3))))))) := by
  rcases hI : initModel env.model { s with cancelled := false } with ⟨ev1, s1, r1⟩
  refine ⟨ev1, s1, r1, rfl, ?_⟩
  simp only [processFile]
  rw [hI]
  cases r1 with
  | error m => exact Or.inl ⟨m, rfl, rfl⟩
  | ok model =>
    cases hc1 : (s1.cancelled || model.isNone) with
    | true =>
      refine Or.inr (Or.inl ⟨model, rfl, hc1, ?_⟩)
      simp [hc1]
    | false =>
      rw [Bool.or_eq_false_iff] at hc1
      obtain ⟨hs1, hmodel⟩ := hc1
      cases model with
      | none => simp [Option.isNone] at hmodel
      | some u =>
        cases u
        refine Or.inr (Or.inr ⟨rfl, hs1, ?_⟩)
        rcases hD : decodeAudio env.decode s1 with ⟨ev2, s2, r2⟩
        refine ⟨ev2, s2, r2, rfl, ?_⟩
        cases r2 with
        | error m =>
          refine Or.inl ⟨m, rfl, ?_⟩
          simp [hs1, hD]
        | ok buf =>
          cases hc2 : s2.cancelled with
          | true =>
            refine Or.inr (Or.inl ⟨buf, rfl, rfl, ?_⟩)
            simp [hs1, hc2, hD]
          | false =>
            refine Or.inr (Or.inr ⟨buf, rfl, rfl, ?_⟩)
            rcases hT : transcribeAudio env.transcribe buf s2 with ⟨ev3, s3, r3⟩
            refine ⟨ev3, s3, r3, rfl, ?_⟩
            cases r3 with
            | error m =>
              refine Or.inl ⟨m, rfl, ?_⟩
              simp [hs1, hc2, hD, hT]
            | ok text =>
              cases hc3 : (s3.cancelled || jsFalsyText text) with
              | true =>
                refine Or.inr (Or.inl ⟨text, rfl, hc3, ?_⟩)
                simp [hs1, hc2, hc3, hD, hT]
              | false =>
                rw [Bool.or_eq_false_iff] at hc3
                obtain ⟨hs3, htext⟩ := hc3
                cases text with
                | none => simp [jsFalsyText] at htext
                | some t =>
                  refine Or.inr (Or.inr ⟨t, rfl, hs3, ?_, ?_⟩)
                  · exact htext
                  · simp [hs1, hc2, hs3, htext, hD, hT]

theorem awaitYield_events (b : Bool) (s : WorkerState) :
    (awaitYield b s).1 = [] ∨ (awaitYield b s).1 = [Event.post (Msg.log "Обработка отменена")] := by
  cases b with
  | false => exact Or.inl rfl
  | true => exact Or.inr rfl

theorem awaitYield_cancelled (b : Bool) (s : WorkerState) :
    ((awaitYield b s).2).cancelled = (s.cancelled || b) := by
  cases b <;> simp [awaitYield, cancelHandler]

/-! ## Branch decomposition of `processUrl` -/

theorem processUrl_cases (env : UrlEnv) (url : String) (s : WorkerState) :
    ∃ evF s1, awaitYield env.cancelDuringFetch { s with cancelled := false } = (evF, s1) ∧
      ((∃ m, env.fetchResult = Except.error m ∧
          processUrl env url s =
            ([Event.post (Msg.progress "decode" "active" "Загрузка аудио...")] ++ evF ++
              [Event.post (Msg.error m)], s1)) ∨
       (∃ resp, env.fetchResult = Except.ok resp ∧ resp.ok = false ∧
          processUrl env url s =
            ([Event.post (Msg.progress "decode" "active" "Загрузка аудио...")] ++ evF ++
              [Event.post (Msg.error ("Не удалось загрузить файл: " ++ toString resp.status))],
              s1)) ∨
       (∃ resp, env.fetchResult = Except.ok resp ∧ resp.ok = true ∧
        ∃ evB s2, awaitYield env.cancelDuringBuffer s1 = (evB, s2) ∧
          ((∃ m, env.bufferResult = Except.error m ∧
              processUrl env url s =
                ([Event.post (Msg.progress "decode" "active" "Загрузка аудио...")] ++ evF ++
                  evB ++ [Event.post (Msg.error m)], s2)) ∨
           (∃ len, env.bufferResult = Except.ok len ∧ s2.cancelled = true ∧
              processUrl env url s =
                ([Event.post (Msg.progress "decode" "active" "Загрузка аудио...")] ++ evF ++
                  evB ++ [Event.checkCancelled afterArrayBufferSite], s2)) ∨
           (∃ len, env.bufferResult = Except.ok len ∧ s2.cancelled = false ∧
              processUrl env url s =
                ([Event.post (Msg.progress "decode" "active" "Загрузка аудио...")] ++ evF ++
                    evB ++ [Event.checkCancelled afterArrayBufferSite] ++
                    (processFile env.file { name := urlBaseName url, size := len } s2).1,
                  (processFile env.file { name := urlBaseName url, size := len } s2).2))))) := by
  rcases hF : awaitYield env.cancelDuringFetch { s with cancelled := false } with ⟨evF, s1⟩
  refine ⟨evF, s1, rfl, ?_⟩
  cases hfr : env.fetchResult with
  | error m =>
    refine Or.inl ⟨m, rfl, ?_⟩
    simp [processUrl, hF, hfr]
  | ok resp =>
    cases hro : resp.ok with
    | false =>
      refine Or.inr (Or.inl ⟨resp, rfl, hro, ?_⟩)
      simp [processUrl, hF, hfr, hro]
    | true =>
      refine Or.inr (Or.inr ⟨resp, rfl, hro, ?_⟩)
      rcases hB : awaitYield env.cancelDuringBuffer s1 with ⟨evB, s2⟩
      refine ⟨evB, s2, rfl, ?_⟩
      cases hbr : env.bufferResult with
      | error m =>
        refine Or.inl ⟨m, rfl, ?_⟩
        simp [processUrl, hF, hfr, hro, hB, hbr]
      | ok len =>
        cases hc2 : s2.cancelled with
        | true =>
          refine Or.inr (Or.inl ⟨len, rfl, rfl, ?_⟩)
          simp [processUrl, hF, hfr, hro, hB, hbr, hc2]
        | false =>
          refine Or.inr (Or.inr ⟨len, rfl, rfl, ?_⟩)
          rcases hP : processFile env.file { name := urlBaseName url, size := len } s2
            with ⟨evP, s3⟩
          simp [processUrl, hF, hfr, hro, hB, hbr, hc2, hP]

/-! ## Run-level trace shapes -/

theorem processFile_shape (env : FileEnv) (fd : FileData) (s : WorkerState) :
    ((processFile env fd s).1).all fileRunShape = true := by
  have hfs : ∀ (me : ModelEnv) (t : WorkerState),
      ((initModel me t).1).all fileRunShape = true := fun me t =>
    all_trans (fun e he => by simp [fileRunShape, he]) (initModel_shape me t)
  have hds : ∀ (de : DecodeEnv) (t : WorkerState),
      ((decodeAudio de t).1).all fileRunShape = true := fun de t =>
    all_trans (fun e he => by simp [fileRunShape, he]) (decodeAudio_shape de t)
  have hts : ∀ (te : TranscribeEnv) (b : AudioBuffer) (t : WorkerState),
      ((transcribeAudio te b t).1).all fileRunShape = true := fun te b t =>
    all_trans (fun e he => by simp [fileRunShape, he]) (transcribeAudio_shape te b t)
  obtain ⟨ev1, s1, r1, hI, hbr⟩ := processFile_cases env fd s
  have h1 : ev1.all fileRunShape = true := by
    have := hfs env.model { s with cancelled := false }
    rwa [hI] at this
  rcases hbr with ⟨m, hr1, hPf⟩ | ⟨model, hr1, hc1, hPf⟩ |
    ⟨hr1, hs1, ev2, s2, r2, hD, hbr2⟩
  · rw [hPf]
    simp [-List.all_eq_true, List.all_append, h1, fileRunShape, Event.isErrorPost]
  · rw [hPf]
    simp [-List.all_eq_true, List.all_append, h1, fileRunShape]
  · have h2 : ev2.all fileRunShape = true := by
      have := hds env.decode s1
      rwa [hD] at this
    rcases hbr2 with ⟨m, hr2, hPf⟩ | ⟨buf, hr2, hc2, hPf⟩ |
      ⟨buf, hr2, hc2, ev3, s3, r3, hT, hbr3⟩
    · rw [hPf]
      simp [-List.all_eq_true, List.all_append, h1, h2, fileRunShape, Event.isErrorPost]
    · rw [hPf]
      simp [-List.all_eq_true, List.all_append, h1, h2, fileRunShape]
    · have h3 : ev3.all fileRunShape = true := by
        have := hts env.transcribe buf s2
        rwa [hT] at this
      rcases hbr3 with ⟨m, hr3, hPf⟩ | ⟨text, hr3, hc3, hPf⟩ | ⟨t, hr3, hs3, ht, hPf⟩ <;>
        rw [hPf] <;>
        simp [-List.all_eq_true, List.all_append, h1, h2, h3, fileRunShape,
          Event.isErrorPost, Event.isResultPost]

theorem processUrl_shape (env : UrlEnv) (url : String) (s : WorkerState) :
    ((processUrl env url s).1).all urlRunShape = true := by
  obtain ⟨evF, s1, hF, hbr⟩ := processUrl_cases env url s
  have h1 : evF.all urlRunShape = true := by
    rcases awaitYield_events env.cancelDuringFetch { s with cancelled := false } with h | h <;>
      rw [hF] at h <;> subst h <;> simp [urlRunShape, fileRunShape, modelShape]
  rcases hbr with ⟨m, hfr, hPf⟩ | ⟨resp, hfr, hro, hPf⟩ |
    ⟨resp, hfr, hro, evB, s2, hB, hbr2⟩
  · rw [hPf]
    simp [-List.all_eq_true, List.all_append, h1, urlRunShape, fileRunShape,
      Event.isErrorPost, decodeShape]
  · rw [hPf]
    simp [-List.all_eq_true, List.all_append, h1, urlRunShape, fileRunShape,
      Event.isErrorPost, decodeShape]
  · have h2 : evB.all urlRunShape = true := by
      rcases awaitYield_events env.cancelDuringBuffer s1 with h | h <;>
        rw [hB] at h <;> subst h <;> simp [urlRunShape, fileRunShape, modelShape]
    have hps : ∀ (fd : FileData) (t : WorkerState),
        ((processFile env.file fd t).1).all urlRunShape = true := fun fd t =>
      all_trans (fun e he => by simp [urlRunShape, he]) (processFile_shape env.file fd t)
    rcases hbr2 with ⟨m, hbrr, hPf⟩ | ⟨len, hbrr, hc2, hPf⟩ | ⟨len, hbrr, hc2, hPf⟩ <;>
      rw [hPf] <;>
      simp [-List.all_eq_true, List.all_append, h1, h2, hps, urlRunShape, fileRunShape,
        Event.isErrorPost, decodeShape]

/-! ## Pointwise consequences of the run-level shapes -/

theorem fileRunShape_ok (e : Event) (h : fileRunShape e = true) :
    progressOk e = true ∧ consultOk e = true := by
  simp only [fileRunShape, Bool.or_eq_true, or_assoc, beq_iff_eq] at h
  rcases h with h | h | h | h | h | h | h | h
  · exact ⟨(modelShape_spec e h).2.2.2.2.1, (modelShape_spec e h).2.2.2.2.2.1⟩
  · exact ⟨(decodeShape_spec e h).2.2.2.2.1, (decodeShape_spec e h).2.2.2.2.2.1⟩
  · exact ⟨(transShape_spec e h).2.2.2.2.1, (transShape_spec e h).2.2.2.2.2.1⟩
  · cases e with
    | post m =>
      cases m with
      | error d => exact ⟨rfl, rfl⟩
      | progress a b c => simp [Event.isErrorPost] at h
      | result a b c d f g => simp [Event.isErrorPost] at h
      | log l => simp [Event.isErrorPost] at h
      | pong => simp [Event.isErrorPost] at h
    | callPipeline => simp [Event.isErrorPost] at h
    | callDecodeData => simp [Event.isErrorPost] at h
    | callTranscriber a b c d f g => simp [Event.isErrorPost] at h
    | checkCancelled site => simp [Event.isErrorPost] at h
  · cases e with
    | post m =>
      cases m with
      | result a b c d f g => exact ⟨rfl, rfl⟩
      | progress a b c => simp [Event.isResultPost] at h
      | error d => simp [Event.isResultPost] at h
      | log l => simp [Event.isResultPost] at h
      | pong => simp [Event.isResultPost] at h
    | callPipeline => simp [Event.isResultPost] at h
    | callDecodeData => simp [Event.isResultPost] at h
    | callTranscriber a b c d f g => simp [Event.isResultPost] at h
    | checkCancelled site => simp [Event.isResultPost] at h
  · subst h; exact ⟨rfl, by decide⟩
  · subst h; exact ⟨rfl, by decide⟩
  · subst h; exact ⟨rfl, by decide⟩

theorem urlRunShape_ok (e : Event) (h : urlRunShape e = true) :
    progressOk e = true ∧ consultOk e = true := by
  simp only [urlRunShape, Bool.or_eq_true, beq_iff_eq] at h
  rcases h with h | h
  · exact fileRunShape_ok e h
  · subst h; exact ⟨rfl, by decide⟩

/-! ## Claim theorems -/

/-- **C3.** Every `progress` message the worker posts — in any run triggered
by any incoming message — names one of the three stages in its `step` field
(`"model"` being the identifier of the model-load stage, alongside
`"decode"` and `"transcribe"`), carries a `status` that is `"active"` or
`"completed"`, and a non-empty human-readable `message` string. -/
theorem claim3_progress_wellformed (wenv : WorkerEnv) (m : InMsg) (s : WorkerState) :
    ((onmessage wenv m s).1).all progressOk = true := by
  have hfile : ((processFile wenv.file m.file s).1).all progressOk = true :=
    all_trans (fun e he => (fileRunShape_ok e he).1) (processFile_shape wenv.file m.file s)
  have hurl : ((processUrl wenv.url m.url s).1).all progressOk = true :=
    all_trans (fun e he => (urlRunShape_ok e he).1) (processUrl_shape wenv.url m.url s)
  simp only [onmessage]
  repeat' split
  · exact hfile
  · exact hurl
  · rfl
  · rfl
  · rfl

/-- **C5.** The worker's only concurrency coordination is the cooperative
`cancelled` flag: in every run the shared Boolean is consulted only at the
await-boundary sites listed in `awaitBoundaryConsultSites` (the three
`processFile` checks, the `processUrl` check — each right after an awaited
call resolves — and the model-download progress callback, which the library
invokes between its own awaited download steps). -/
theorem claim5_flag_consults_at_awaits (wenv : WorkerEnv) (m : InMsg) (s : WorkerState) :
    ((onmessage wenv m s).1).all consultOk = true := by
  have hfile : ((processFile wenv.file m.file s).1).all consultOk = true :=
    all_trans (fun e he => (fileRunShape_ok e he).2) (processFile_shape wenv.file m.file s)
  have hurl : ((processUrl wenv.url m.url s).1).all consultOk = true :=
    all_trans (fun e he => (urlRunShape_ok e he).2) (processUrl_shape wenv.url m.url s)
  simp only [onmessage]
  repeat' split
  · exact hfile
  · exact hurl
  · rfl
  · rfl
  · rfl

/-- **C9.** Both `processFile` and `processUrl` reset the cancellation flag
to `false` before any other work, so their behaviour (trace and final state)
is independent of the flag value left by earlier runs or cancellations. -/
theorem claim9_flag_reset_each_run (fenv : FileEnv) (uenv : UrlEnv) (fd : FileData)
    (url : String) (t a c : Bool) :
    processFile fenv fd ⟨t, a, c⟩ = processFile fenv fd ⟨t, a, false⟩ ∧
      processUrl uenv url ⟨t, a, c⟩ = processUrl uenv url ⟨t, a, false⟩ :=
  ⟨rfl, rfl⟩

/-- **C10.** A `'ping'` message makes the worker post exactly one `'pong'`
and leave its state untouched, and a message whose type matches none of the
four handled cases produces no event and no state change. -/
theorem claim10_ping_pong_frame (wenv : WorkerEnv) (s : WorkerState) (f : FileData)
    (u ty : String)
    (hty : ty ∉ ["transcribe", "transcribeUrl", "cancel", "ping"]) :
    onmessage wenv ⟨"ping", f, u⟩ s = ([Event.post Msg.pong], s) ∧
      onmessage wenv ⟨ty, f, u⟩ s = ([], s) := by
  constructor
  · rfl
  · simp only [List.mem_cons, List.not_mem_nil, or_false, not_or] at hty
    obtain ⟨h1, h2, h3, h4⟩ := hty
    simp [onmessage, h1, h2, h3, h4]

/-- Witness for C10 at a concrete unhandled message type. -/
theorem claim10_ping_pong_frame_witness :
    onmessage sampleWorkerEnv ⟨"ping", sampleFile, "x"⟩ initialState =
        ([Event.post Msg.pong], initialState) ∧
      onmessage sampleWorkerEnv ⟨"bogus", sampleFile, "x"⟩ initialState =
        ([], initialState) :=
  claim10_ping_pong_frame sampleWorkerEnv initialState sampleFile "x" "bogus" (by decide)

/-! ## Cancellation short-circuits the remaining steps (C2) -/

theorem processFile_cancel_absence (env : FileEnv) (fd : FileData) (s : WorkerState) :
    (modelCancelRequested env.model = true →
      ((processFile env fd s).1).any Event.isDecodeCall = false ∧
        ((processFile env fd s).1).any Event.isTranscriberCall = false ∧
        ((processFile env fd s).1).any Event.isResultPost = false) ∧
    (env.decode.cancelDuringDecode = true →
      ((processFile env fd s).1).any Event.isTranscriberCall = false ∧
        ((processFile env fd s).1).any Event.isResultPost = false) ∧
    (env.transcribe.cancelDuringTranscribe = true →
      ((processFile env fd s).1).any Event.isResultPost = false) := by
  obtain ⟨ev1, s1, r1, hI, hbr⟩ := processFile_cases env fd s
  have h1 := initModel_shape env.model { s with cancelled := false }
  rw [hI] at h1
  have h1D : ev1.any Event.isDecodeCall = false :=
    any_false_of_all (fun e he => (modelShape_spec e he).2.2.1) h1
  have h1T : ev1.any Event.isTranscriberCall = false :=
    any_false_of_all (fun e he => (modelShape_spec e he).2.2.2.1) h1
  have h1R : ev1.any Event.isResultPost = false :=
    any_false_of_all (fun e he => (modelShape_spec e he).2.1) h1
  rcases hbr with ⟨m, hr1, hPf⟩ | ⟨model, hr1, hc1, hPf⟩ |
    ⟨hr1, hs1, ev2, s2, r2, hD, hbr2⟩
  · rw [hPf]
    refine ⟨fun _ => ?_, fun _ => ?_, fun _ => ?_⟩ <;>
      simp [List.any_append, h1D, h1T, h1R, Event.isDecodeCall, Event.isTranscriberCall,
        Event.isResultPost]
  · rw [hPf]
    refine ⟨fun _ => ?_, fun _ => ?_, fun _ => ?_⟩ <;>
      simp [List.any_append, h1D, h1T, h1R, Event.isDecodeCall, Event.isTranscriberCall,
        Event.isResultPost]
  · have hmc : modelCancelRequested env.model = true → False := by
      intro hm
      have hok : (initModel env.model { s with cancelled := false }).2.2 =
          Except.ok (some ()) := by rw [hI]; exact hr1
      have hcan := initModel_flag_cancelled env.model { s with cancelled := false } hm hok
      rw [hI] at hcan
      simp [hs1] at hcan
    have h2 := decodeAudio_shape env.decode s1
    rw [hD] at h2
    have h2T : ev2.any Event.isTranscriberCall = false :=
      any_false_of_all (fun e he => (decodeShape_spec e he).2.2.2.1) h2
    have h2R : ev2.any Event.isResultPost = false :=
      any_false_of_all (fun e he => (decodeShape_spec e he).2.1) h2
    rcases hbr2 with ⟨m, hr2, hPf⟩ | ⟨buf, hr2, hc2, hPf⟩ |
      ⟨buf, hr2, hc2, ev3, s3, r3, hT, hbr3⟩
    · rw [hPf]
      refine ⟨fun hm => (hmc hm).elim, fun _ => ?_, fun _ => ?_⟩ <;>
        simp [List.any_append, h1T, h1R, h2T, h2R, Event.isTranscriberCall, Event.isResultPost]
    · rw [hPf]
      refine ⟨fun hm => (hmc hm).elim, fun _ => ?_, fun _ => ?_⟩ <;>
        simp [List.any_append, h1T, h1R, h2T, h2R, Event.isTranscriberCall, Event.isResultPost]
    · have hdc : env.decode.cancelDuringDecode = true → False := by
        intro hdd
        have h := decodeAudio_cancelled env.decode s1
        rw [hD] at h
        simp [hs1, hdd, hc2] at h
      have h3 := transcribeAudio_shape env.transcribe buf s2
      rw [hT] at h3
      have h3R : ev3.any Event.isResultPost = false :=
        any_false_of_all (fun e he => (transShape_spec e he).2.1) h3
      rcases hbr3 with ⟨m, hr3, hPf⟩ | ⟨text, hr3, hc3, hPf⟩ | ⟨t, hr3, hs3, ht, hPf⟩
      · rw [hPf]
        refine ⟨fun hm => (hmc hm).elim, fun hd => (hdc hd).elim, fun _ => ?_⟩
        simp [List.any_append, h1R, h2R, h3R, Event.isResultPost]
      · rw [hPf]
        refine ⟨fun hm => (hmc hm).elim, fun hd => (hdc hd).elim, fun _ => ?_⟩
        simp [List.any_append, h1R, h2R, h3R, Event.isResultPost]
      · have htc : env.transcribe.cancelDuringTranscribe = true → False := by
          intro htt
          have h := transcribeAudio_cancelled env.transcribe buf s2
          rw [hT] at h
          simp [hc2, htt, hs3] at h
        exact ⟨fun hm => (hmc hm).elim, fun hd => (hdc hd).elim, fun ht => (htc ht).elim⟩

theorem processUrl_cancel_absence (env : UrlEnv) (url : String) (s : WorkerState)
    (hflag : (env.cancelDuringFetch || env.cancelDuringBuffer) = true) :
    ((processUrl env url s).1).any Event.isPipelineCall = false ∧
      ((processUrl env url s).1).any Event.isDecodeCall = false ∧
      ((processUrl env url s).1).any Event.isTranscriberCall = false ∧
      ((processUrl env url s).1).any Event.isResultPost = false := by
  obtain ⟨evF, s1, hF, hbr⟩ := processUrl_cases env url s
  have hFev := awaitYield_events env.cancelDuringFetch { s with cancelled := false }
  rw [hF] at hFev
  have hFany : ∀ q : Event → Bool,
      q (Event.post (Msg.log "Обработка отменена")) = false → evF.any q = false := by
    intro q hq
    rcases hFev with h | h <;> subst h <;> simp [hq]
  have hs1c : s1.cancelled = env.cancelDuringFetch := by
    have h := awaitYield_cancelled env.cancelDuringFetch { s with cancelled := false }
    rw [hF] at h
    simpa using h
  rcases hbr with ⟨m, hfr, hPf⟩ | ⟨resp, hfr, hro, hPf⟩ |
    ⟨resp, hfr, hro, evB, s2, hB, hbr2⟩
  · rw [hPf]
    refine ⟨?_, ?_, ?_, ?_⟩ <;>
      simp [List.any_append, hFany, Event.isPipelineCall, Event.isDecodeCall,
        Event.isTranscriberCall, Event.isResultPost]
  · rw [hPf]
    refine ⟨?_, ?_, ?_, ?_⟩ <;>
      simp [List.any_append, hFany, Event.isPipelineCall, Event.isDecodeCall,
        Event.isTranscriberCall, Event.isResultPost]
  · have hBev := awaitYield_events env.cancelDuringBuffer s1
    rw [hB] at hBev
    have hBany : ∀ q : Event → Bool,
        q (Event.post (Msg.log "Обработка отменена")) = false → evB.any q = false := by
      intro q hq
      rcases hBev with h | h <;> subst h <;> simp [hq]
    rcases hbr2 with ⟨m, hbrr, hPf⟩ | ⟨len, hbrr, hc2, hPf⟩ | ⟨len, hbrr, hc2, hPf⟩
    · rw [hPf]
      refine ⟨?_, ?_, ?_, ?_⟩ <;>
        simp [List.any_append, hFany, hBany, Event.isPipelineCall, Event.isDecodeCall,
          Event.isTranscriberCall, Event.isResultPost]
    · rw [hPf]
      refine ⟨?_, ?_, ?_, ?_⟩ <;>
        simp [List.any_append, hFany, hBany, Event.isPipelineCall, Event.isDecodeCall,
          Event.isTranscriberCall, Event.isResultPost]
    · exfalso
      have h := awaitYield_cancelled env.cancelDuringBuffer s1
      rw [hB] at h
      simp [hs1c, hc2] at h
      simp [h] at hflag

/-- **C2.** Once a `cancel` is delivered at an await boundary, the remaining
pipeline steps of that run are short-circuited: cancellation anywhere in the
model-load step prevents the decode call, the transcriber call and any
`result` post; cancellation during the decode await prevents the transcriber
call and any `result` post; cancellation during the transcriber await
prevents any `result` post; and cancellation during either `processUrl`
fetch await prevents all three step calls and any `result` post. -/
theorem claim2_cancel_short_circuit (fenv : FileEnv) (uenv : UrlEnv) (fd : FileData)
    (url : String) (s : WorkerState) :
    (modelCancelRequested fenv.model = true →
      ((processFile fenv fd s).1).any Event.isDecodeCall = false ∧
        ((processFile fenv fd s).1).any Event.isTranscriberCall = false ∧
        ((processFile fenv fd s).1).any Event.isResultPost = false) ∧
    (fenv.decode.cancelDuringDecode = true →
      ((processFile fenv fd s).1).any Event.isTranscriberCall = false ∧
        ((processFile fenv fd s).1).any Event.isResultPost = false) ∧
    (fenv.transcribe.cancelDuringTranscribe = true →
      ((processFile fenv fd s).1).any Event.isResultPost = false) ∧
    ((uenv.cancelDuringFetch || uenv.cancelDuringBuffer) = true →
      ((processUrl uenv url s).1).any Event.isPipelineCall = false ∧
        ((processUrl uenv url s).1).any Event.isDecodeCall = false ∧
        ((processUrl uenv url s).1).any Event.isTranscriberCall = false ∧
        ((processUrl uenv url s).1).any Event.isResultPost = false) :=
  ⟨(processFile_cancel_absence fenv fd s).1, (processFile_cancel_absence fenv fd s).2.1,
    (processFile_cancel_absence fenv fd s).2.2,
    fun h => processUrl_cancel_absence uenv url s h⟩

/-- Witness for C2: concrete runs with a cancellation delivered at every
await of `processFile` and during both fetch awaits of `processUrl`. -/
theorem claim2_cancel_short_circuit_witness :
    (((processFile cancelFileEnv sampleFile initialState).1).any Event.isDecodeCall = false ∧
      ((processFile cancelFileEnv sampleFile initialState).1).any Event.isTranscriberCall
          = false ∧
      ((processFile cancelFileEnv sampleFile initialState).1).any Event.isResultPost = false) ∧
    (((processUrl cancelUrlEnv "http://x/a.mp3" initialState).1).any Event.isPipelineCall
        = false ∧
      ((processUrl cancelUrlEnv "http://x/a.mp3" initialState).1).any Event.isDecodeCall
        = false ∧
      ((processUrl cancelUrlEnv "http://x/a.mp3" initialState).1).any Event.isTranscriberCall
        = false ∧
      ((processUrl cancelUrlEnv "http://x/a.mp3" initialState).1).any Event.isResultPost
        = false) :=
  ⟨(claim2_cancel_short_circuit cancelFileEnv cancelUrlEnv sampleFile "http://x/a.mp3"
      initialState).1 (by decide),
    (claim2_cancel_short_circuit cancelFileEnv cancelUrlEnv sampleFile "http://x/a.mp3"
      initialState).2.2.2 (by decide)⟩

/-! ## Error forwarding (C4) -/

theorem processFile_errorFilter (env : FileEnv) (fd : FileData) (s : WorkerState) :
    ((processFile env fd s).1).filter Event.isErrorPost =
      ((processFileThrown env s).map fun e => Event.post (Msg.error e)).toList := by
  obtain ⟨ev1, s1, r1, hI, hbr⟩ := processFile_cases env fd s
  have h1 := initModel_shape env.model { s with cancelled := false }
  rw [hI] at h1
  have h1E : ev1.filter Event.isErrorPost = [] :=
    filter_nil_of_all (fun e he => (modelShape_spec e he).1) h1
  rcases hbr with ⟨m, hr1, hPf⟩ | ⟨model, hr1, hc1, hPf⟩ |
    ⟨hr1, hs1, ev2, s2, r2, hD, hbr2⟩
  · rw [hPf]
    subst hr1
    simp [processFileThrown, hI, List.filter_append, h1E, Event.isErrorPost]
  · rw [hPf]
    subst hr1
    simp [processFileThrown, hI, hc1, List.filter_append, h1E, Event.isErrorPost]
  · subst hr1
    have h2 := decodeAudio_shape env.decode s1
    rw [hD] at h2
    have h2E : ev2.filter Event.isErrorPost = [] :=
      filter_nil_of_all (fun e he => (decodeShape_spec e he).1) h2
    rcases hbr2 with ⟨m, hr2, hPf⟩ | ⟨buf, hr2, hc2, hPf⟩ |
      ⟨buf, hr2, hc2, ev3, s3, r3, hT, hbr3⟩
    · rw [hPf]
      subst hr2
      simp [processFileThrown, hI, hs1, hD, List.filter_append, h1E, h2E, Event.isErrorPost]
    · rw [hPf]
      subst hr2
      simp [processFileThrown, hI, hs1, hD, hc2, List.filter_append, h1E, h2E,
        Event.isErrorPost]
    · subst hr2
      have h3 := transcribeAudio_shape env.transcribe buf s2
      rw [hT] at h3
      have h3E : ev3.filter Event.isErrorPost = [] :=
        filter_nil_of_all (fun e he => (transShape_spec e he).1) h3
      rcases hbr3 with ⟨m, hr3, hPf⟩ | ⟨text, hr3, hc3, hPf⟩ | ⟨t, hr3, hs3, ht, hPf⟩ <;>
        rw [hPf] <;> subst hr3 <;>
        simp [processFileThrown, hI, hs1, hD, hc2, hT, List.filter_append, h1E, h2E, h3E,
          Event.isErrorPost]

theorem processUrl_errorFilter (env : UrlEnv) (url : String) (s : WorkerState) :
    ((processUrl env url s).1).filter Event.isErrorPost =
      ((processUrlThrown env s).map fun e => Event.post (Msg.error e)).toList := by
  obtain ⟨evF, s1, hF, hbr⟩ := processUrl_cases env url s
  have hFev := awaitYield_events env.cancelDuringFetch { s with cancelled := false }
  rw [hF] at hFev
  have hFE : evF.filter Event.isErrorPost = [] := by
    rcases hFev with h | h <;> subst h <;> simp [Event.isErrorPost]
  rcases hbr with ⟨m, hfr, hPf⟩ | ⟨resp, hfr, hro, hPf⟩ |
    ⟨resp, hfr, hro, evB, s2, hB, hbr2⟩
  · rw [hPf]
    simp [processUrlThrown, hF, hfr, List.filter_append, hFE, Event.isErrorPost]
  · rw [hPf]
    simp [processUrlThrown, hF, hfr, hro, List.filter_append, hFE, Event.isErrorPost]
  · have hBev := awaitYield_events env.cancelDuringBuffer s1
    rw [hB] at hBev
    have hBE : evB.filter Event.isErrorPost = [] := by
      rcases hBev with h | h <;> subst h <;> simp [Event.isErrorPost]
    rcases hbr2 with ⟨m, hbrr, hPf⟩ | ⟨len, hbrr, hc2, hPf⟩ | ⟨len, hbrr, hc2, hPf⟩
    · rw [hPf]
      simp [processUrlThrown, hF, hfr, hro, hB, hbrr, List.filter_append, hFE, hBE,
        Event.isErrorPost]
    · rw [hPf]
      simp [processUrlThrown, hF, hfr, hro, hB, hbrr, hc2, List.filter_append, hFE, hBE,
        Event.isErrorPost]
    · rw [hPf]
      simp [processUrlThrown, hF, hfr, hro, hB, hbrr, hc2, List.filter_append, hFE, hBE,
        Event.isErrorPost, processFile_errorFilter]

/-- **C4.** Errors are forwarded by message passing, exactly once per run:
the `error` messages a `processFile` (resp. `processUrl`) run posts are
exactly one message carrying the thrown error's message when a step threw a
non-cancellation error, and none otherwise; and the `self.onerror` fallback
forwards an escaped error's message as an `error` message. -/
theorem claim4_error_forwarded_once (fenv : FileEnv) (uenv : UrlEnv) (fd : FileData)
    (url : String) (s : WorkerState) (m : String) :
    ((processFile fenv fd s).1).filter Event.isErrorPost =
        ((processFileThrown fenv s).map fun e => Event.post (Msg.error e)).toList ∧
      ((processUrl uenv url s).1).filter Event.isErrorPost =
        ((processUrlThrown uenv s).map fun e => Event.post (Msg.error e)).toList ∧
      onerrorHandler m = [Msg.error m] :=
  ⟨processFile_errorFilter fenv fd s, processUrl_errorFilter uenv url s, rfl⟩

/-! ## Cancellation-terminated runs are silent (C8) -/

theorem fileRunShape_logOk (e : Event) (h : fileRunShape e = true) : logOk e = true := by
  cases e with
  | post m =>
    cases m with
    | log l =>
      simpa [fileRunShape, modelShape, decodeShape, transShape, Event.isErrorPost,
        Event.isResultPost, logOk] using h
    | progress a b c => rfl
    | result a b c d f g => rfl
    | error d => rfl
    | pong => rfl
  | callPipeline => rfl
  | callDecodeData => rfl
  | callTranscriber a b c d f g => rfl
  | checkCancelled site => rfl

/-- **C8.** A run that ends through one of the cancellation-driven early
returns posts neither a `result` nor an `error` message; every `log` message
that can appear in the trace is the cancel handler's own note. -/
theorem claim8_cancelled_run_silent (env : FileEnv) (fd : FileData) (s : WorkerState)
    (hc : processFileCancelledEnd env s = true) :
    ((processFile env fd s).1).any Event.isResultPost = false ∧
      ((processFile env fd s).1).any Event.isErrorPost = false ∧
      ((processFile env fd s).1).all logOk = true := by
  have hlog : ((processFile env fd s).1).all logOk = true :=
    all_trans (fun e he => fileRunShape_logOk e he) (processFile_shape env fd s)
  obtain ⟨ev1, s1, r1, hI, hbr⟩ := processFile_cases env fd s
  have h1 := initModel_shape env.model { s with cancelled := false }
  rw [hI] at h1
  have h1R : ev1.any Event.isResultPost = false :=
    any_false_of_all (fun e he => (modelShape_spec e he).2.1) h1
  have h1E : ev1.any Event.isErrorPost = false :=
    any_false_of_all (fun e he => (modelShape_spec e he).1) h1
  rcases hbr with ⟨m, hr1, hPf⟩ | ⟨model, hr1, hc1, hPf⟩ |
    ⟨hr1, hs1, ev2, s2, r2, hD, hbr2⟩
  · exfalso
    subst hr1
    simp [processFileCancelledEnd, hI] at hc
  · rw [hPf]
    subst hr1
    refine ⟨?_, ?_, ?_⟩
    · simp [List.any_append, h1R, Event.isResultPost]
    · simp [List.any_append, h1E, Event.isErrorPost]
    · rw [hPf] at hlog
      exact hlog
  · subst hr1
    have h2 := decodeAudio_shape env.decode s1
    rw [hD] at h2
    have h2R : ev2.any Event.isResultPost = false :=
      any_false_of_all (fun e he => (decodeShape_spec e he).2.1) h2
    have h2E : ev2.any Event.isErrorPost = false :=
      any_false_of_all (fun e he => (decodeShape_spec e he).1) h2
    rcases hbr2 with ⟨m, hr2, hPf⟩ | ⟨buf, hr2, hc2, hPf⟩ |
      ⟨buf, hr2, hc2, ev3, s3, r3, hT, hbr3⟩
    · exfalso
      subst hr2
      simp [processFileCancelledEnd, hI, hs1, hD] at hc
    · rw [hPf]
      subst hr2
      refine ⟨?_, ?_, ?_⟩
      · simp [List.any_append, h1R, h2R, Event.isResultPost]
      · simp [List.any_append, h1E, h2E, Event.isErrorPost]
      · rw [hPf] at hlog
        exact hlog
    · subst hr2
      have h3 := transcribeAudio_shape env.transcribe buf s2
      rw [hT] at h3
      have h3R : ev3.any Event.isResultPost = false :=
        any_false_of_all (fun e he => (transShape_spec e he).2.1) h3
      have h3E : ev3.any Event.isErrorPost = false :=
        any_false_of_all (fun e he => (transShape_spec e he).1) h3
      rcases hbr3 with ⟨m, hr3, hPf⟩ | ⟨text, hr3, hc3, hPf⟩ | ⟨t, hr3, hs3, ht, hPf⟩
      · exfalso
        subst hr3
        simp [processFileCancelledEnd, hI, hs1, hD, hc2, hT] at hc
      · rw [hPf]
        subst hr3
        refine ⟨?_, ?_, ?_⟩
        · simp [List.any_append, h1R, h2R, h3R, Event.isResultPost]
        · simp [List.any_append, h1E, h2E, h3E, Event.isErrorPost]
        · rw [hPf] at hlog
          exact hlog
      · exfalso
        subst hr3
        simp [processFileCancelledEnd, hI, hs1, hD, hc2, hT, hs3] at hc

/-- Witness for C8: a run cancelled during the decode await. -/
theorem claim8_cancelled_run_silent_witness :
    ((processFile cancelDecodeFileEnv sampleFile initialState).1).any Event.isResultPost
        = false ∧
      ((processFile cancelDecodeFileEnv sampleFile initialState).1).any Event.isErrorPost
        = false ∧
      ((processFile cancelDecodeFileEnv sampleFile initialState).1).all logOk = true :=
  claim8_cancelled_run_silent cancelDecodeFileEnv sampleFile initialState (by decide)

/-! ## The single pipeline invocation (C6) and text pass-through (C7) -/

/-- **C6.** In every successful run (one that posts a `result`), the external
`transcriber` pipeline is invoked exactly once, on the first channel's sample
data, with the decoded buffer's original sampling rate passed through
unchanged (along with the fixed chunking/language options). -/
theorem claim6_transcriber_called_once (env : FileEnv) (fd : FileData) (s : WorkerState)
    (buf : AudioBuffer) (hbuf : env.decode.decodeResult = Except.ok buf)
    (hres : ((processFile env fd s).1).any Event.isResultPost = true) :
    ((processFile env fd s).1).filter Event.isTranscriberCall =
      [Event.callTranscriber (getChannelData buf 0) 30 5 "ru" "transcribe"
        buf.sampleRate] := by
  obtain ⟨ev1, s1, r1, hI, hbr⟩ := processFile_cases env fd s
  have h1 := initModel_shape env.model { s with cancelled := false }
  rw [hI] at h1
  have h1R : ev1.any Event.isResultPost = false :=
    any_false_of_all (fun e he => (modelShape_spec e he).2.1) h1
  have h1T : ev1.filter Event.isTranscriberCall = [] :=
    filter_nil_of_all (fun e he => (modelShape_spec e he).2.2.2.1) h1
  rcases hbr with ⟨m, hr1, hPf⟩ | ⟨model, hr1, hc1, hPf⟩ |
    ⟨hr1, hs1, ev2, s2, r2, hD, hbr2⟩
  · exfalso
    rw [hPf] at hres
    simp [List.any_append, h1R, Event.isResultPost] at hres
  · exfalso
    rw [hPf] at hres
    simp [List.any_append, h1R, Event.isResultPost] at hres
  · have h2 := decodeAudio_shape env.decode s1
    rw [hD] at h2
    have h2R : ev2.any Event.isResultPost = false :=
      any_false_of_all (fun e he => (decodeShape_spec e he).2.1) h2
    have h2T : ev2.filter Event.isTranscriberCall = [] :=
      filter_nil_of_all (fun e he => (decodeShape_spec e he).2.2.2.1) h2
    rcases hbr2 with ⟨m, hr2, hPf⟩ | ⟨buf2, hr2, hc2, hPf⟩ |
      ⟨buf2, hr2, hc2, ev3, s3, r3, hT, hbr3⟩
    · exfalso
      rw [hPf] at hres
      simp [List.any_append, h1R, h2R, Event.isResultPost] at hres
    · exfalso
      rw [hPf] at hres
      simp [List.any_append, h1R, h2R, Event.isResultPost] at hres
    · have hb : buf2 = buf := by
        have h := decodeAudio_result env.decode s1
        rw [hD, hbuf] at h
        simp [hr2] at h
        exact h
      subst hb
      have h3T : ev3.filter Event.isTranscriberCall =
          [Event.callTranscriber (getChannelData buf2 0) 30 5 "ru" "transcribe"
            buf2.sampleRate] := by
        have h := transcribeAudio_calls env.transcribe buf2 s2
        rw [hT] at h
        exact h
      have h3R : ev3.any Event.isResultPost = false := by
        have h3 := transcribeAudio_shape env.transcribe buf2 s2
        rw [hT] at h3
        exact any_false_of_all (fun e he => (transShape_spec e he).2.1) h3
      rcases hbr3 with ⟨m, hr3, hPf⟩ | ⟨text, hr3, hc3, hPf⟩ | ⟨t, hr3, hs3, ht, hPf⟩
      · exfalso
        rw [hPf] at hres
        simp [List.any_append, h1R, h2R, h3R, Event.isResultPost] at hres
      · exfalso
        rw [hPf] at hres
        simp [List.any_append, h1R, h2R, h3R, Event.isResultPost] at hres
      · rw [hPf]
        simp [List.filter_append, h1T, h2T, h3T, Event.isTranscriberCall]

/-- Witness for C6: the fully successful sample run. -/
theorem claim6_transcriber_called_once_witness :
    ((processFile okFileEnv sampleFile initialState).1).filter Event.isTranscriberCall =
      [Event.callTranscriber (getChannelData sampleBuf 0) 30 5 "ru" "transcribe"
        sampleBuf.sampleRate] :=
  claim6_transcriber_called_once okFileEnv sampleFile initialState sampleBuf rfl (by decide)

/-- **C7.** The worker applies no transformation between the pipeline's
return and the posted message: whenever a `result` message appears in a
`processFile` trace, its `text` is exactly the `.text` the external
`transcriber` call returned. -/
theorem claim7_result_text_passthrough (env : FileEnv) (fd : FileData) (s : WorkerState)
    (t d : String) (sr nc : Nat) (nm : String) (sz : Nat)
    (hmem : Event.post (Msg.result t d sr nc nm sz) ∈ (processFile env fd s).1) :
    env.transcribe.transcribeResult = Except.ok t := by
  have hresAny : ((processFile env fd s).1).any Event.isResultPost = true :=
    List.any_eq_true.2 ⟨_, hmem, rfl⟩
  obtain ⟨ev1, s1, r1, hI, hbr⟩ := processFile_cases env fd s
  have h1 := initModel_shape env.model { s with cancelled := false }
  rw [hI] at h1
  have h1R : ev1.any Event.isResultPost = false :=
    any_false_of_all (fun e he => (modelShape_spec e he).2.1) h1
  rcases hbr with ⟨m, hr1, hPf⟩ | ⟨model, hr1, hc1, hPf⟩ |
    ⟨hr1, hs1, ev2, s2, r2, hD, hbr2⟩
  · exfalso
    rw [hPf] at hresAny
    simp [List.any_append, h1R, Event.isResultPost] at hresAny
  · exfalso
    rw [hPf] at hresAny
    simp [List.any_append, h1R, Event.isResultPost] at hresAny
  · have h2 := decodeAudio_shape env.decode s1
    rw [hD] at h2
    have h2R : ev2.any Event.isResultPost = false :=
      any_false_of_all (fun e he => (decodeShape_spec e he).2.1) h2
    rcases hbr2 with ⟨m, hr2, hPf⟩ | ⟨buf, hr2, hc2, hPf⟩ |
      ⟨buf, hr2, hc2, ev3, s3, r3, hT, hbr3⟩
    · exfalso
      rw [hPf] at hresAny
      simp [List.any_append, h1R, h2R, Event.isResultPost] at hresAny
    · exfalso
      rw [hPf] at hresAny
      simp [List.any_append, h1R, h2R, Event.isResultPost] at hresAny
    · have h3R : ev3.any Event.isResultPost = false := by
        have h3 := transcribeAudio_shape env.transcribe buf s2
        rw [hT] at h3
        exact any_false_of_all (fun e he => (transShape_spec e he).2.1) h3
      rcases hbr3 with ⟨m, hr3, hPf⟩ | ⟨text, hr3, hc3, hPf⟩ | ⟨t2, hr3, hs3, ht2, hPf⟩
      · exfalso
        rw [hPf] at hresAny
        simp [List.any_append, h1R, h2R, h3R, Event.isResultPost] at hresAny
      · exfalso
        rw [hPf] at hresAny
        simp [List.any_append, h1R, h2R, h3R, Event.isResultPost] at hresAny
      · rw [hPf] at hmem
        have hPany : (ev1 ++ [Event.checkCancelled afterInitModelSite] ++
            (ev2 ++ [Event.checkCancelled afterDecodeSite]) ++
            (ev3 ++ [Event.checkCancelled afterTranscribeSite])).any Event.isResultPost
            = false := by
          simp [List.any_append, h1R, h2R, h3R, Event.isResultPost]
        rcases List.mem_append.1 hmem with hm | hm
        · exfalso
          have hx : (ev1 ++ [Event.checkCancelled afterInitModelSite] ++
              (ev2 ++ [Event.checkCancelled afterDecodeSite]) ++
              (ev3 ++ [Event.checkCancelled afterTranscribeSite])).any Event.isResultPost
              = true := List.any_eq_true.2 ⟨_, hm, rfl⟩
          rw [hPany] at hx
          cases hx
        · rw [List.mem_singleton] at hm
          have hfields : t = t2 := by
            have := congrArg (fun e =>
              match e with
              | Event.post (Msg.result tx _ _ _ _ _) => tx
              | _ => "") hm
            simpa using this
          have h := transcribeAudio_result env.transcribe buf s2
          rw [hT] at h
          rw [hr3] at h
          cases htr : env.transcribe.transcribeResult with
          | ok u =>
            rw [htr] at h
            simp only [Except.ok.injEq, Option.some.injEq] at h
            rw [hfields, h]
          | error m2 =>
            rw [htr] at h
            by_cases hm2 : (m2 == "Cancelled") = true
            · simp [hm2] at h
            · simp [hm2] at h

/-- Witness for C7: the result posted by the fully successful sample run
carries the text the sample pipeline returned. -/
theorem claim7_result_text_passthrough_witness :
    okFileEnv.transcribe.transcribeResult = Except.ok "привет" :=
  claim7_result_text_passthrough okFileEnv sampleFile initialState "привет"
    sampleBuf.durationStr sampleBuf.sampleRate sampleBuf.numberOfChannels
    sampleFile.name sampleFile.size (by decide)

/-! ## Fixed step order (C1) -/

theorem stagesOrdered_const (xs : List Nat) (k : Nat) (h : ∀ x ∈ xs, x = k) :
    stagesOrdered xs = true := by
  induction xs with
  | nil => rfl
  | cons a as ih =>
    cases as with
    | nil => rfl
    | cons b bs =>
      simp only [stagesOrdered, Bool.and_eq_true, decide_eq_true_eq]
      refine ⟨?_, ih fun x hx => h x (List.mem_cons_of_mem a hx)⟩
      rw [h a (by simp), h b (by simp)]

theorem stagesOrdered_le_append (xs ys : List Nat) (k : Nat)
    (hx : ∀ x ∈ xs, x ≤ k) (hy : ∀ y ∈ ys, k ≤ y)
    (h1 : stagesOrdered xs = true) (h2 : stagesOrdered ys = true) :
    stagesOrdered (xs ++ ys) = true := by
  induction xs with
  | nil => simpa using h2
  | cons a as ih =>
    cases as with
    | nil =>
      cases ys with
      | nil => rfl
      | cons y ys' =>
        have hay : a ≤ y := le_trans (hx a (by simp)) (hy y (by simp))
        simpa [stagesOrdered, hay] using h2
    | cons a2 as2 =>
      simp only [stagesOrdered, Bool.and_eq_true, decide_eq_true_eq] at h1
      obtain ⟨ha, hrest⟩ := h1
      have hxs : ∀ x ∈ a2 :: as2, x ≤ k := fun x hx' => hx x (List.mem_cons_of_mem a hx')
      have := ih hxs hrest
      simp only [List.cons_append, stagesOrdered, Bool.and_eq_true, decide_eq_true_eq]
      exact ⟨ha, by simpa [List.cons_append] using this⟩

theorem stagesOrdered_blocks (A B C : List Nat)
    (hA : ∀ x ∈ A, x = 0) (hB : ∀ x ∈ B, x = 1) (hC : ∀ x ∈ C, x = 2) :
    stagesOrdered (A ++ B ++ C) = true := by
  apply stagesOrdered_le_append (A ++ B) C 2
  · intro x hx
    rcases List.mem_append.1 hx with h | h
    · rw [hA x h]; omega
    · rw [hB x h]; omega
  · intro y hy
    rw [hC y hy]
  · apply stagesOrdered_le_append A B 1
    · intro x hx
      rw [hA x hx]; omega
    · intro y hy
      rw [hB y hy]
    · exact stagesOrdered_const A 0 hA
    · exact stagesOrdered_const B 1 hB
  · exact stagesOrdered_const C 2 hC

theorem phases_const_of_shape (evs : List Event) (p : Event → Bool) (k : Nat)
    (hspec : ∀ e, p e = true → Event.phase e = some k ∨ Event.phase e = none)
    (h : evs.all p = true) : ∀ q ∈ evs.filterMap Event.phase, q = k := by
  intro q hq
  rw [List.mem_filterMap] at hq
  obtain ⟨e, he, hph⟩ := hq
  rw [List.all_eq_true] at h
  rcases hspec e (h e he) with h' | h' <;> rw [h'] at hph
  · exact (Option.some_inj.1 hph).symm
  · cases hph

theorem hasProgress_append (st sta : String) (A B : List Event) :
    hasProgress st sta (A ++ B) = (hasProgress st sta A || hasProgress st sta B) := by
  simp [hasProgress, List.any_append]

theorem hasProgress_singleton (st sta : String) (e : Event) :
    hasProgress st sta [e] = progressIs st sta e := by
  simp [hasProgress]

theorem hasProgress_cons (st sta : String) (e : Event) (l : List Event) :
    hasProgress st sta (e :: l) = (progressIs st sta e || hasProgress st sta l) := by
  simp [hasProgress]

theorem hasProgress_nil (st sta : String) : hasProgress st sta [] = false := rfl

theorem modelShape_progressIs_false (e : Event) (h : modelShape e = true)
    (st sta : String) (hst : ("model" == st) = false) : progressIs st sta e = false := by
  cases e with
  | post m =>
    cases m with
    | progress a b c =>
      simp only [modelShape, Bool.and_eq_true, Bool.or_eq_true, beq_iff_eq] at h
      obtain ⟨⟨ha, _⟩, _⟩ := h
      subst ha
      simp [progressIs, hst]
    | result a b c d f g => rfl
    | error d => rfl
    | log l => rfl
    | pong => rfl
  | callPipeline => rfl
  | callDecodeData => rfl
  | callTranscriber a b c d f g => rfl
  | checkCancelled site => rfl

theorem decodeShape_progressIs_false (e : Event) (h : decodeShape e = true)
    (st sta : String) (hst : ("decode" == st) = false) : progressIs st sta e = false := by
  cases e with
  | post m =>
    cases m with
    | progress a b c =>
      simp only [decodeShape, Bool.and_eq_true, Bool.or_eq_true, beq_iff_eq] at h
      obtain ⟨⟨ha, _⟩, _⟩ := h
      subst ha
      simp [progressIs, hst]
    | result a b c d f g => rfl
    | error d => rfl
    | log l => rfl
    | pong => rfl
  | callPipeline => rfl
  | callDecodeData => rfl
  | callTranscriber a b c d f g => rfl
  | checkCancelled site => rfl

/-- **C1.** The three async steps of `processFile` run in the fixed order
model load → decode → inference: along every trace the stages of the
stage-carrying events are non-decreasing, the decode step only starts after
the model step has completed, and the transcribe step only starts after both
the model and the decode steps have completed. -/
theorem claim1_steps_in_order (env : FileEnv) (fd : FileData) (s : WorkerState) :
    stagesOrdered (((processFile env fd s).1).filterMap Event.phase) = true ∧
      (hasProgress "decode" "active" ((processFile env fd s).1) = true →
        hasProgress "model" "completed" ((processFile env fd s).1) = true) ∧
      (hasProgress "transcribe" "active" ((processFile env fd s).1) = true →
        hasProgress "model" "completed" ((processFile env fd s).1) = true ∧
          hasProgress "decode" "completed" ((processFile env fd s).1) = true) := by
  obtain ⟨ev1, s1, r1, hI, hbr⟩ := processFile_cases env fd s
  have h1 := initModel_shape env.model { s with cancelled := false }
  rw [hI] at h1
  have hph1 : ∀ q ∈ ev1.filterMap Event.phase, q = 0 :=
    phases_const_of_shape ev1 modelShape 0 (fun e he => (modelShape_spec e he).2.2.2.2.2.2) h1
  have h1nd : hasProgress "decode" "active" ev1 = false :=
    any_false_of_all (fun e he => modelShape_progressIs_false e he _ _ (by decide)) h1
  have h1nt : hasProgress "transcribe" "active" ev1 = false :=
    any_false_of_all (fun e he => modelShape_progressIs_false e he _ _ (by decide)) h1
  rcases hbr with ⟨m, hr1, hPf⟩ | ⟨model, hr1, hc1, hPf⟩ |
    ⟨hr1, hs1, ev2, s2, r2, hD, hbr2⟩
  · rw [hPf]
    refine ⟨?_, ?_, ?_⟩
    · have : stagesOrdered ((ev1.filterMap Event.phase) ++ [] ++ []) = true :=
        stagesOrdered_blocks _ [] [] hph1 (by simp) (by simp)
      simpa [List.filterMap_append, Event.phase] using this
    · intro hcon
      exfalso
      simp [hasProgress_append, hasProgress_singleton, hasProgress_cons, hasProgress_nil, h1nd, progressIs] at hcon
    · intro hcon
      exfalso
      simp [hasProgress_append, hasProgress_singleton, hasProgress_cons, hasProgress_nil, h1nt, progressIs] at hcon
  · rw [hPf]
    refine ⟨?_, ?_, ?_⟩
    · have : stagesOrdered ((ev1.filterMap Event.phase) ++ [] ++ []) = true :=
        stagesOrdered_blocks _ [] [] hph1 (by simp) (by simp)
      simpa [List.filterMap_append, Event.phase] using this
    · intro hcon
      exfalso
      simp [hasProgress_append, hasProgress_singleton, hasProgress_cons, hasProgress_nil, h1nd, progressIs] at hcon
    · intro hcon
      exfalso
      simp [hasProgress_append, hasProgress_singleton, hasProgress_cons, hasProgress_nil, h1nt, progressIs] at hcon
  · have hmc : hasProgress "model" "completed" ev1 = true := by
      have h := initModel_completed env.model { s with cancelled := false }
        (by rw [hI]; exact hr1)
      rw [hI] at h
      exact h
    have h2 := decodeAudio_shape env.decode s1
    rw [hD] at h2
    have hph2 : ∀ q ∈ ev2.filterMap Event.phase, q = 1 :=
      phases_const_of_shape ev2 decodeShape 1
        (fun e he => (decodeShape_spec e he).2.2.2.2.2.2) h2
    have h2nt : hasProgress "transcribe" "active" ev2 = false :=
      any_false_of_all (fun e he => decodeShape_progressIs_false e he _ _ (by decide)) h2
    rcases hbr2 with ⟨m, hr2, hPf⟩ | ⟨buf, hr2, hc2, hPf⟩ |
      ⟨buf, hr2, hc2, ev3, s3, r3, hT, hbr3⟩
    · rw [hPf]
      refine ⟨?_, ?_, ?_⟩
      · have : stagesOrdered ((ev1.filterMap Event.phase) ++ (ev2.filterMap Event.phase)
            ++ []) = true := stagesOrdered_blocks _ _ [] hph1 hph2 (by simp)
        simpa [List.filterMap_append, Event.phase] using this
      · intro hcon
        simp [hasProgress_append, hasProgress_singleton, hasProgress_cons, hasProgress_nil, hmc]
      · intro hcon
        exfalso
        simp [hasProgress_append, hasProgress_singleton, hasProgress_cons, hasProgress_nil, h1nt, h2nt, progressIs] at hcon
    · rw [hPf]
      refine ⟨?_, ?_, ?_⟩
      · have : stagesOrdered ((ev1.filterMap Event.phase) ++ (ev2.filterMap Event.phase)
            ++ []) = true := stagesOrdered_blocks _ _ [] hph1 hph2 (by simp)
        simpa [List.filterMap_append, Event.phase] using this
      · intro hcon
        simp [hasProgress_append, hasProgress_singleton, hasProgress_cons, hasProgress_nil, hmc]
      · intro hcon
        exfalso
        simp [hasProgress_append, hasProgress_singleton, hasProgress_cons, hasProgress_nil, h1nt, h2nt, progressIs] at hcon
    · have hdc : hasProgress "decode" "completed" ev2 = true := by
        have h := decodeAudio_completed env.decode s1 buf (by rw [hD]; exact hr2)
        rw [hD] at h
        exact h
      have h3 := transcribeAudio_shape env.transcribe buf s2
      rw [hT] at h3
      have hph3 : ∀ q ∈ ev3.filterMap Event.phase, q = 2 :=
        phases_const_of_shape ev3 transShape 2
          (fun e he => (transShape_spec e he).2.2.2.2.2.2) h3
      rcases hbr3 with ⟨m, hr3, hPf⟩ | ⟨text, hr3, hc3, hPf⟩ | ⟨t, hr3, hs3, ht, hPf⟩ <;>
        rw [hPf] <;>
        refine ⟨?_, fun _ => by simp [hasProgress_append, hasProgress_singleton, hasProgress_cons, hasProgress_nil, hmc],
          fun _ => ⟨by simp [hasProgress_append, hasProgress_singleton, hasProgress_cons, hasProgress_nil, hmc],
            by simp [hasProgress_append, hasProgress_singleton, hasProgress_cons, hasProgress_nil, hdc]⟩⟩ <;>
      · have : stagesOrdered ((ev1.filterMap Event.phase) ++ (ev2.filterMap Event.phase)
            ++ (ev3.filterMap Event.phase)) = true :=
          stagesOrdered_blocks _ _ _ hph1 hph2 hph3
        simpa [List.filterMap_append, Event.phase] using this

/-- Witness for C1: the fully successful sample run reaches both completion
implications with true antecedents. -/
theorem claim1_steps_in_order_witness :
    stagesOrdered (((processFile okFileEnv sampleFile initialState).1).filterMap
        Event.phase) = true ∧
      hasProgress "model" "completed" ((processFile okFileEnv sampleFile initialState).1)
          = true ∧
        hasProgress "decode" "completed" ((processFile okFileEnv sampleFile initialState).1)
          = true :=
  ⟨(claim1_steps_in_order okFileEnv sampleFile initialState).1,
    (claim1_steps_in_order okFileEnv sampleFile initialState).2.2 (by decide)⟩

end WhisperWeb
